import Mathlib

/-!
Verification of the spin-wheel engine: angle mapping (`ticket-angle-mapper.ts`),
targeted spin physics (`fixed-spin-physics.ts`), winner resolution and the spin
state machine (`WheelApp.jsx` `spinWheel`), and the fixed-ticket queue storage
(`wheel-storage.ts`).  Numbers are embedded as rationals; JavaScript's `%`
(truncated remainder) is modelled by `jsRem`.
-/

namespace SpinWheel

/-- Truncation toward zero of a rational, as JavaScript division truncates
for the remainder operator. -/
def truncQ (q : ℚ) : ℤ := if 0 ≤ q then ⌊q⌋ else ⌈q⌉

/-- JavaScript's `%` operator on numbers: `x % y = x - y * trunc(x / y)`,
so the result takes the sign of the dividend. -/
def jsRem (x y : ℚ) : ℚ := x - y * (truncQ (x / y) : ℚ)

/-- The source's normalization idiom `((x % 360) + 360) % 360`, mapping any
angle into `[0, 360)`. -/
def normalize360 (x : ℚ) : ℚ := jsRem (jsRem x 360 + 360) 360

/-- A wheel entry (`WheelEntry` of `wheel-storage.ts`, restricted to the two
fields the engine reads). -/
structure WheelEntry where
  ticketNumber : String
  label : String
deriving Repr, DecidableEq

/-- `Map.set` of a JavaScript `Map` kept as an insertion-ordered association
list: setting an existing key overwrites its value in place, a new key is
appended. -/
def mapSet {α : Type} (m : List (String × α)) (k : String) (v : α) :
    List (String × α) :=
  if m.any (fun p => p.1 = k) then
    m.map (fun p => if p.1 = k then (k, v) else p)
  else
    m ++ [(k, v)]

/-- `Map.get`: the value stored at a key, if any. -/
def mapGet {α : Type} (m : List (String × α)) (k : String) : Option α :=
  (m.find? (fun p => p.1 = k)).map (·.2)

/-- `TicketAngleMap` of `ticket-angle-mapper.ts`: ticket number to segment
center angle, and ticket number to index. -/
structure TicketAngleMap where
  ticketToAngle : List (String × ℚ)
  ticketToIndex : List (String × ℕ)
deriving Repr, DecidableEq

/-- The segment-center formula of `buildTicketAngleMap`:
`normalize((i * sliceAngle - 90) + sliceAngle / 2)` with
`sliceAngle = 360 / count`. -/
def segmentCenterAngle (count : ℕ) (i : ℕ) : ℚ :=
  let sliceAngle : ℚ := 360 / (count : ℚ)
  let sliceStart : ℚ := (i : ℚ) * sliceAngle - 90
  normalize360 (sliceStart + sliceAngle / 2)

/-- The `entries.forEach((entry, index) => ...)` loop of
`buildTicketAngleMap`, with the total count fixed up front. -/
def buildFrom (count : ℕ) : ℕ → List WheelEntry → TicketAngleMap → TicketAngleMap
  | _, [], m => m
  | i, e :: es, m =>
      buildFrom count (i + 1) es
        { ticketToAngle := mapSet m.ticketToAngle e.ticketNumber (segmentCenterAngle count i)
          ticketToIndex := mapSet m.ticketToIndex e.ticketNumber i }

/-- `buildTicketAngleMap` of `ticket-angle-mapper.ts` (the empty-input early
return coincides with the loop over the empty list). -/
def buildTicketAngleMap (entries : List WheelEntry) : TicketAngleMap :=
  buildFrom entries.length 0 entries ⟨[], []⟩

/-- `getAngleForTicket` of `ticket-angle-mapper.ts`:
`ticketAngleMap.ticketToAngle.get(ticketNumber) ?? null`. -/
def getAngleForTicket (ticketNumber : String) (m : TicketAngleMap) : Option ℚ :=
  mapGet m.ticketToAngle ticketNumber

/-- `RotationProfile` of `fixed-spin-physics.ts`. -/
inductive RotationProfile : Type
  | A | B | C
deriving Repr, DecidableEq

/-- `minRotations` per profile (`5.5`, `6.0`, `5.2`). -/
def profileMinRotations : RotationProfile → ℚ
  | .A => 11 / 2
  | .B => 6
  | .C => 26 / 5

/-- `maxRotations` per profile (`8.2`, `7.8`, `8.5`). -/
def profileMaxRotations : RotationProfile → ℚ
  | .A => 41 / 5
  | .B => 39 / 5
  | .C => 17 / 2

/-- `baseMicroOffsetRange` per profile (`3`, `2.5`, `3.5`). -/
def profileBaseMicroOffsetRange : RotationProfile → ℚ
  | .A => 3
  | .B => 5 / 2
  | .C => 7 / 2

/-- Per-profile duration: `11000 + Math.random() * W - W/2` with window `W`
of `500`, `400`, `600` ms; `u` is the `Math.random()` draw. -/
def profileDuration (p : RotationProfile) (u : ℚ) : ℚ :=
  match p with
  | .A => 11000 + u * 500 - 250
  | .B => 11000 + u * 400 - 200
  | .C => 11000 + u * 600 - 300

/-- `adaptiveMicroOffsetRange = Math.min(baseMicroOffsetRange, sliceAngle * 0.3)`
where `sliceAngle = 360 / totalEntries` and `totalEntries` is the angle map's
size. -/
def adaptiveMicroOffsetRange (totalEntries : ℕ) (p : RotationProfile) : ℚ :=
  min (profileBaseMicroOffsetRange p) ((360 / (totalEntries : ℚ)) * (3 / 10))

/-- `microOffset = (Math.random() - 0.5) * adaptiveMicroOffsetRange`; `u` is
the `Math.random()` draw. -/
def microOffset (totalEntries : ℕ) (p : RotationProfile) (u : ℚ) : ℚ :=
  (u - 1 / 2) * adaptiveMicroOffsetRange totalEntries p

/-- Result record of `calculateFixedSpinByTicket`. -/
structure FixedSpinResult where
  endRotation : ℚ
  duration : ℚ
  profile : RotationProfile
deriving Repr, DecidableEq

/-- `calculateFixedSpinByTicket` of `fixed-spin-physics.ts`.  The profile is
taken as an argument (the caller always supplies one); the three
`Math.random()` draws for the turn count, the micro offset and the duration
are the arguments `randRotations`, `randMicro`, `randDuration`, each in
`[0, 1)`.  The `throw` on a missing ticket is `Except.error`. -/
def calculateFixedSpinByTicket (currentRotation : ℚ) (ticketNumber : String)
    (m : TicketAngleMap) (profile : RotationProfile)
    (randRotations randMicro randDuration : ℚ) : Except String FixedSpinResult :=
  match mapGet m.ticketToAngle ticketNumber with
  | none => .error ("Ticket number \"" ++ ticketNumber ++ "\" not found in angle map")
  | some targetAngle =>
      let totalEntries := m.ticketToAngle.length
      let duration := profileDuration profile randDuration
      let rotations := profileMinRotations profile
        + randRotations * (profileMaxRotations profile - profileMinRotations profile)
      let currentPointerAngle := jsRem (360 - jsRem currentRotation 360) 360
      let angleToTarget0 := targetAngle - currentPointerAngle
      let angleToTarget := if angleToTarget0 < 0 then angleToTarget0 + 360 else angleToTarget0
      let mo := microOffset totalEntries profile randMicro
      let totalRotation := rotations * 360 + angleToTarget + mo
      .ok ⟨currentRotation + totalRotation, duration, profile⟩

/-- `sliceStart` (and, at `i+1`, `sliceEnd`) of the winner-resolution loop in
`WheelApp.jsx`: `(i * sliceAngle - 90 + 360) % 360`. -/
def sliceStartAngle (n : ℕ) (i : ℕ) : ℚ :=
  jsRem ((i : ℚ) * (360 / (n : ℚ)) - 90 + 360) 360

/-- The `inSlice` membership test of the winner-resolution loop, including the
wraparound branch for intervals crossing 0°/360°. -/
def inSlice (n : ℕ) (i : ℕ) (angle : ℚ) : Bool :=
  let s := sliceStartAngle n i
  let e := sliceStartAngle n (i + 1)
  if s < e then decide (s ≤ angle) && decide (angle < e)
  else decide (s ≤ angle) || decide (angle < e)

/-- The `for` loop of the winner resolution: first index whose slice contains
the pointer angle. -/
def findSliceIndex (n : ℕ) (angle : ℚ) : Option ℕ :=
  (List.range n).find? (fun i => inSlice n i angle)

/-- The closest-center fallback loop (`minDist` starts at `Infinity`, strict
improvement wins, ties keep the earlier index). -/
def closestSliceIndex (n : ℕ) (angle : ℚ) : ℕ :=
  ((List.range n).foldl (fun acc (i : ℕ) =>
    let center := jsRem ((i : ℚ) * (360 / (n : ℚ)) - 90 + (360 / (n : ℚ)) / 2 + 360) 360
    let d0 := |angle - center|
    let d := if d0 > 180 then 360 - d0 else d0
    match acc.2 with
    | some best => if d < best then (i, some d) else acc
    | none => (i, some d)) ((0 : ℕ), (none : Option ℚ))).1

/-- The full winner resolution of `WheelApp.jsx`: normalize the frozen
rotation, take the pointer angle `(360 - R) % 360`, scan the slices, fall back
to the closest center, and reduce the index modulo the entry count. -/
def resolveWinner (finalRotation : ℚ) (n : ℕ) : ℕ :=
  let r := normalize360 finalRotation
  let pointer := jsRem (360 - r) 360
  (match findSliceIndex n pointer with
   | some i => i
   | none => closestSliceIndex n pointer) % n

/-- `WheelListSnapshot` of `wheel-storage.ts` (`lastUpdated` is the
`Date.now()` timestamp, passed in explicitly). -/
structure WheelListSnapshot where
  entries : List WheelEntry
  fixedTicketNumber : Option String
  fixedTicketsQueue : List String
  lastUpdated : ℕ
deriving Repr, DecidableEq

/-- `setFixedTicketsQueue` of `wheel-storage.ts`: validate length ≤ 3, then
no duplicates (`new Set(tickets).size !== tickets.length`, modelled by
`dedup`), then existence of every ticket in the current entries (the loop
throws at the first missing one, hence `find?`); on success replace the queue
wholesale and stamp `lastUpdated`. -/
def setFixedTicketsQueue (tickets : List String) (now : ℕ)
    (s : WheelListSnapshot) : Except String WheelListSnapshot :=
  if 3 < tickets.length then
    .error ("Maximum 3 fixed tickets allowed. Received " ++ toString tickets.length)
  else if tickets.dedup.length ≠ tickets.length then
    .error "Duplicate tickets not allowed in fixed tickets queue"
  else
    match tickets.find? (fun t => !(s.entries.any (fun e => e.ticketNumber = t))) with
    | some t => .error ("Ticket number \"" ++ t ++ "\" not found in current list")
    | none => .ok { s with fixedTicketsQueue := tickets, lastUpdated := now }

/-- The module-level snapshot update: a thrown validation error leaves
`currentListSnapshot` untouched, a successful call installs the new value. -/
def applySetFixedTicketsQueue (tickets : List String) (now : ℕ)
    (s : WheelListSnapshot) : WheelListSnapshot :=
  match setFixedTicketsQueue tickets now s with
  | .ok s' => s'
  | .error _ => s

/-- The plan a started spin runs with: the consumed queue ticket (if any), the
planned end rotation and the duration. -/
structure SpinStart where
  ticket : Option String
  endRotation : ℚ
  duration : ℚ
deriving Repr, DecidableEq

/-- The slice of `WheelApp` component state that `spinWheel` reads and
writes: the `isSpinning` flag, the entry names, the fixed-ticket queue ref,
the current rotation, the spin counter ref, the ticket-angle map ref, and the
in-flight plan of the running animation. -/
structure WheelState where
  isSpinning : Bool
  names : List String
  queue : List String
  finalRotation : ℚ
  spinCount : ℕ
  angleMap : Option TicketAngleMap
  plan : Option SpinStart
deriving Repr, DecidableEq

/-- The `Math.random()` draws one `spinWheel` call can consume: the three
draws of `calculateFixedSpinByTicket` and the two draws of the natural-spin
branch. -/
structure SpinDraws where
  uRot : ℚ
  uMicro : ℚ
  uDur : ℚ
  nSpins : ℚ
  nAngle : ℚ
deriving Repr, DecidableEq

/-- The natural-spin end rotation of `WheelApp.jsx`:
`startRotation + (5 + u * 3) * 360 + v * 360` for the turn draw `u` and the
angle draw `v` (`randomAngle = Math.random() * 360`). -/
def naturalEndRotation (startRotation nSpins nAngle : ℚ) : ℚ :=
  startRotation + (5 + nSpins * (8 - 5)) * 360 + nAngle * 360

/-- `profiles[spinCount % 3]` of `WheelApp.jsx`. -/
def profileOfSpinCount (n : ℕ) : RotationProfile :=
  match n % 3 with
  | 0 => .A
  | 1 => .B
  | _ => .C

/-- The synchronous part of `spinWheel` in `WheelApp.jsx`: the entry guard
(`if (isSpinning || currentNames.length === 0) return` — a plain return, no
exception, no signal), the FIFO queue consumption (`queueCopy.shift() || null`
turns an empty-string head into `null`), and the end-rotation computation with
its `try`/`catch` fail-safe (a lookup miss clears the queue and falls back to
the natural formula).  An `Except.error` result would model an exception
escaping to the caller; the source never produces one. -/
def spinWheelStep (s : WheelState) (d : SpinDraws) :
    Except String (WheelState × Option SpinStart) :=
  if s.isSpinning || s.names.length == 0 then .ok (s, none)
  else
    let startRotation := s.finalRotation
    let consumed : Option String × List String :=
      match s.queue with
      | [] => (none, [])
      | h :: t => (if h = "" then none else some h, t)
    let currentFixedTicket := consumed.1
    let queueAfterShift := consumed.2
    let spinCount' := s.spinCount + 1
    let planned : ℚ × ℚ × List String :=
      match currentFixedTicket, s.angleMap with
      | some tk, some m =>
          match getAngleForTicket tk m with
          | none => (naturalEndRotation startRotation d.nSpins d.nAngle, 11000, [])
          | some _ =>
              match calculateFixedSpinByTicket startRotation tk m
                  (profileOfSpinCount spinCount') d.uRot d.uMicro d.uDur with
              | .error _ => (naturalEndRotation startRotation d.nSpins d.nAngle, 11000, [])
              | .ok res => (res.endRotation, res.duration, queueAfterShift)
      | _, _ => (naturalEndRotation startRotation d.nSpins d.nAngle, 11000, queueAfterShift)
    let start : SpinStart := ⟨currentFixedTicket, planned.1, planned.2.1⟩
    .ok ({ s with
            isSpinning := true
            queue := planned.2.2
            spinCount := spinCount'
            plan := some start },
         some start)

/-- One full spin: the synchronous start followed by the animation completion,
which freezes the rotation at the planned end value and resets `isSpinning`.
If no spin started, the state is unchanged. -/
def spinCycle (s : WheelState) (d : SpinDraws) : WheelState × Option SpinStart :=
  match spinWheelStep s d with
  | .ok (s', some p) => ({ s' with isSpinning := false, finalRotation := p.endRotation }, some p)
  | .ok (s', none) => (s', none)
  | .error _ => (s, none)

/-- The per-spin trace over `n` successive completed spins: for each spin,
`none` when it was refused, otherwise `some` of the consumed queue ticket
(`none` inside meaning a natural-mode spin). -/
def spinTrace : WheelState → (ℕ → SpinDraws) → ℕ → List (Option (Option String))
  | _, _, 0 => []
  | s, ds, n + 1 =>
      let c := spinCycle s (ds 0)
      (c.2.map SpinStart.ticket) :: spinTrace c.1 (fun k => ds (k + 1)) n

/-- The state after `n` successive completed spins. -/
def spinIterate : WheelState → (ℕ → SpinDraws) → ℕ → WheelState
  | s, _, 0 => s
  | s, ds, n + 1 => spinIterate (spinCycle s (ds 0)).1 (fun k => ds (k + 1)) n

/-! ### Arithmetic facts about the JavaScript remainder -/

theorem jsRem_of_nonneg_lt {x : ℚ} (h0 : 0 ≤ x) (h1 : x < 360) : jsRem x 360 = x := by
  unfold jsRem truncQ
  have hq0 : (0 : ℚ) ≤ x / 360 := by positivity
  rw [if_pos hq0]
  have hfl : ⌊x / 360⌋ = 0 := by
    rw [Int.floor_eq_zero_iff, Set.mem_Ico]
    exact ⟨hq0, by rw [div_lt_one (by norm_num : (0:ℚ) < 360)]; exact h1⟩
  rw [hfl]
  push_cast
  ring

/-- Evaluation of `x % 360` for a nonnegative dividend lying in the turn
window `[k * 360, (k + 1) * 360)`. -/
theorem jsRem_sub_turns {x : ℚ} (k : ℤ) (hk : 0 ≤ k)
    (h0 : (k : ℚ) * 360 ≤ x) (h1 : x < ((k : ℚ) + 1) * 360) :
    jsRem x 360 = x - 360 * (k : ℚ) := by
  have hx0 : (0 : ℚ) ≤ x := by
    have : (0 : ℚ) ≤ (k : ℚ) * 360 := by positivity
    linarith
  unfold jsRem truncQ
  have hq0 : (0 : ℚ) ≤ x / 360 := by positivity
  rw [if_pos hq0]
  have hfl : ⌊x / 360⌋ = k := by
    rw [Int.floor_eq_iff]
    constructor
    · rw [le_div_iff (by norm_num : (0:ℚ) < 360)]
      linarith
    · push_cast
      rw [div_lt_iff (by norm_num : (0:ℚ) < 360)]
      linarith
  rw [hfl]

theorem jsRem_of_ge_360 {x : ℚ} (h0 : 360 ≤ x) (h1 : x < 720) : jsRem x 360 = x - 360 := by
  have := jsRem_sub_turns (x := x) 1 (by norm_num) (by push_cast; linarith)
    (by push_cast; linarith)
  simpa using this

theorem jsRem_of_neg {x : ℚ} (h0 : -360 < x) (h1 : x < 0) : jsRem x 360 = x := by
  unfold jsRem truncQ
  have hq0 : ¬ (0 : ℚ) ≤ x / 360 := by
    rw [not_le]
    exact div_neg_of_neg_of_pos h1 (by norm_num)
  rw [if_neg hq0]
  have hcl : ⌈x / 360⌉ = 0 := by
    rw [Int.ceil_eq_zero_iff, Set.mem_Ioc]
    constructor
    · rw [lt_div_iff (by norm_num : (0:ℚ) < 360)]
      linarith
    · exact le_of_lt (div_neg_of_neg_of_pos h1 (by norm_num))
  rw [hcl]
  push_cast
  ring

theorem normalize360_of_mem {x : ℚ} (h0 : 0 ≤ x) (h1 : x < 360) : normalize360 x = x := by
  unfold normalize360
  rw [jsRem_of_nonneg_lt h0 h1, jsRem_of_ge_360 (by linarith) (by linarith)]
  ring

theorem normalize360_of_neg {x : ℚ} (h0 : -360 < x) (h1 : x < 0) :
    normalize360 x = x + 360 := by
  unfold normalize360
  rw [jsRem_of_neg h0 h1, jsRem_of_nonneg_lt (by linarith) (by linarith)]

/-! ### C1: the round-trip property fails on the code -/

/-- **C1** (code bug, failing input evaluated): with the four distinct tickets
`T1..T4`, starting rotation 0, target ticket `T3` (position 2, segment center
135°), profile `A`, turn-count draw `5/27` (so `rotations = 6`, an exact
number of full turns) and micro-offset draw `1/2` (so `microOffset = 0`), the
planner returns `endRotation = 2295`, yet the winner-resolution algorithm
resolves 2295 to segment 3 while the angle map associates `T3` with segment 2.
The planner adds `targetAngle - pointerAngle` where landing on the target
segment requires `pointerAngle - targetAngle` (and in general also adds a
non-integral `rotations * 360`), so the claimed round-trip equality fails even
for this integral, offset-free draw. -/
theorem c1_roundtrip_fails_on_code :
    calculateFixedSpinByTicket 0 "T3"
        (buildTicketAngleMap [⟨"T1", "a"⟩, ⟨"T2", "b"⟩, ⟨"T3", "c"⟩, ⟨"T4", "d"⟩])
        RotationProfile.A (5 / 27) (1 / 2) 0
      = Except.ok ⟨2295, 10750, RotationProfile.A⟩
    ∧ resolveWinner 2295 4 = 3
    ∧ mapGet (buildTicketAngleMap
        [⟨"T1", "a"⟩, ⟨"T2", "b"⟩, ⟨"T3", "c"⟩, ⟨"T4", "d"⟩]).ticketToIndex "T3"
      = some 2
    ∧ (3 : ℕ) ≠ 2 := by
  have hja : jsRem (0 : ℚ) 360 = 0 := jsRem_of_nonneg_lt le_rfl (by norm_num)
  have hjb : jsRem (360 : ℚ) 360 = 0 := by
    rw [jsRem_of_ge_360 (by norm_num) (by norm_num)]
    norm_num
  have hj495 : jsRem (495 : ℚ) 360 = 135 := by
    rw [jsRem_of_ge_360 (by norm_num) (by norm_num)]
    norm_num
  have hj2295 : jsRem (2295 : ℚ) 360 = 135 := by
    rw [jsRem_sub_turns 6 (by norm_num) (by push_cast; norm_num) (by push_cast; norm_num)]
    norm_num
  have hj225 : jsRem (225 : ℚ) 360 = 225 := jsRem_of_nonneg_lt (by norm_num) (by norm_num)
  refine ⟨?_, ?_, ?_, by norm_num⟩
  · have hmap : mapGet (buildTicketAngleMap
        [⟨"T1", "a"⟩, ⟨"T2", "b"⟩, ⟨"T3", "c"⟩, ⟨"T4", "d"⟩]).ticketToAngle "T3"
        = some (segmentCenterAngle 4 2) := by
      simp [buildTicketAngleMap, buildFrom, mapSet, mapGet, List.find?]
    have hcenter : segmentCenterAngle 4 2 = 135 := by
      unfold segmentCenterAngle
      norm_num
      exact normalize360_of_mem (by norm_num) (by norm_num)
    simp only [calculateFixedSpinByTicket, hmap, hcenter, hja]
    norm_num [hjb, microOffset, profileDuration, profileMinRotations, profileMaxRotations]
  · have hs0 : sliceStartAngle 4 0 = 270 := by
      unfold sliceStartAngle
      norm_num
      exact jsRem_of_nonneg_lt (by norm_num) (by norm_num)
    have hs1 : sliceStartAngle 4 1 = 0 := by
      unfold sliceStartAngle
      norm_num
      rw [jsRem_of_ge_360 (by norm_num) (by norm_num)]
      norm_num
    have hs2 : sliceStartAngle 4 2 = 90 := by
      unfold sliceStartAngle
      norm_num
      rw [jsRem_of_ge_360 (by norm_num) (by norm_num)]
      norm_num
    have hs3 : sliceStartAngle 4 3 = 180 := by
      unfold sliceStartAngle
      norm_num
      rw [jsRem_of_ge_360 (by norm_num) (by norm_num)]
      norm_num
    have hs4 : sliceStartAngle 4 4 = 270 := by
      unfold sliceStartAngle
      norm_num
      rw [jsRem_of_ge_360 (by norm_num) (by norm_num)]
      norm_num
    have hi0 : inSlice 4 0 225 = false := by
      unfold inSlice
      rw [hs0, hs1]
      norm_num
    have hi1 : inSlice 4 1 225 = false := by
      unfold inSlice
      rw [hs1, hs2]
      norm_num
    have hi2 : inSlice 4 2 225 = false := by
      unfold inSlice
      rw [hs2, hs3]
      norm_num
    have hi3 : inSlice 4 3 225 = true := by
      unfold inSlice
      rw [hs3, hs4]
      norm_num
    have hrange : List.range 4 = [0, 1, 2, 3] := rfl
    have hfind : findSliceIndex 4 225 = some 3 := by
      unfold findSliceIndex
      rw [hrange]
      simp [List.find?, hi0, hi1, hi2, hi3]
    unfold resolveWinner normalize360
    rw [hj2295]
    norm_num [hj495, hj225, hfind]
  · simp [buildTicketAngleMap, buildFrom, mapSet, mapGet, List.find?]

/-! ### C4: the adaptive micro-offset clamp -/

/-- **C4** (confirmed): for every entity count `n ≥ 1` taken from the angle
map's size, every profile and every `Math.random()` draw `u ∈ [0, 1]`, the
micro offset added by `calculateFixedSpinByTicket` satisfies
`|microOffset| ≤ 0.3 * (360 / n)`; the `n = 500` instance of the bound is the
spec's `0.216°`. -/
theorem c4_micro_offset_clamp (n : ℕ) (p : RotationProfile) (u : ℚ)
    (hn : 1 ≤ n) (h0 : 0 ≤ u) (h1 : u ≤ 1) :
    |microOffset n p u| ≤ (3 / 10) * (360 / (n : ℚ)) := by
  have hn0 : (0 : ℚ) < (n : ℚ) := by exact_mod_cast hn
  have hsafe : (0 : ℚ) ≤ (360 / (n : ℚ)) * (3 / 10) := by positivity
  have hbase : (0 : ℚ) ≤ profileBaseMicroOffsetRange p := by
    cases p <;> norm_num [profileBaseMicroOffsetRange]
  unfold microOffset
  rw [abs_mul]
  have hu : |u - 1 / 2| ≤ 1 / 2 := by
    rw [abs_le]
    constructor <;> linarith
  have hrange : |adaptiveMicroOffsetRange n p| ≤ (360 / (n : ℚ)) * (3 / 10) := by
    unfold adaptiveMicroOffsetRange
    rw [abs_of_nonneg (le_min hbase hsafe)]
    exact min_le_right _ _
  calc |u - 1 / 2| * |adaptiveMicroOffsetRange n p|
      ≤ (1 / 2) * ((360 / (n : ℚ)) * (3 / 10)) := by
        exact mul_le_mul hu hrange (abs_nonneg _) (by norm_num)
    _ ≤ (3 / 10) * (360 / (n : ℚ)) := by
        rw [mul_comm]
        have h360 : (0 : ℚ) ≤ 360 / (n : ℚ) := by positivity
        nlinarith

/-- Witness for C4 at the spec's scenario size: 500 entities, profile `A`,
draw `u = 0`; the bound is `0.3 * (360 / 500) = 0.216`. -/
theorem c4_micro_offset_clamp_witness :
    |microOffset 500 RotationProfile.A 0| ≤ (3 / 10) * (360 / (500 : ℚ))
    ∧ (3 / 10) * (360 / (500 : ℚ)) = 27 / 125 := by
  exact ⟨c4_micro_offset_clamp 500 RotationProfile.A 0 (by norm_num) (by norm_num)
    (by norm_num), by norm_num⟩

/-! ### C7: the empty-entity-list guard is a silent no-op -/

/-- **C7** (counterexample): with an empty entity list (and a pending queue
entry), a spin request returns normally with the state completely unchanged
and nothing reported: no exception (`Except.ok`), no started spin, no queue
consumption.  This refutes the claim's assertion that the refusal "is
reported to the caller rather than silently ignored" — the guard
`if (isSpinning || currentNames.length === 0) return` is a bare return. -/
theorem c7_refusal_is_silent :
    spinWheelStep ⟨false, [], ["T1"], 5, 2, none, none⟩ ⟨0, 0, 0, 0, 0⟩
      = Except.ok (⟨false, [], ["T1"], 5, 2, none, none⟩, none) := rfl

/-- **C7** (amended): with an empty entity list a spin request is refused with
no rotation change, no queue consumption, no winner emission and no state
mutation of any kind — but silently: the call returns normally (`Except.ok`)
with the unchanged state and no started spin, reporting nothing to the
caller. -/
theorem c7_empty_names_silent_noop (s : WheelState) (d : SpinDraws)
    (h : s.names = []) : spinWheelStep s d = Except.ok (s, none) := by
  unfold spinWheelStep
  rw [if_pos]
  rw [h]
  simp

/-- Witness for the amended C7 at a concrete state. -/
theorem c7_empty_names_silent_noop_witness :
    spinWheelStep ⟨true, [], ["T2"], 7, 0, none, none⟩ ⟨1, 0, 1, 0, 1⟩
      = Except.ok (⟨true, [], ["T2"], 7, 0, none, none⟩, none) :=
  c7_empty_names_silent_noop ⟨true, [], ["T2"], 7, 0, none, none⟩ ⟨1, 0, 1, 0, 1⟩ rfl

/-! ### C9: a spin request while spinning is a no-op -/

/-- **C9** (confirmed): in any state with `isSpinning = true`, a new spin
request returns the state unchanged and starts nothing: no new animation, no
queue consumption, and the in-flight plan (`plan`, carrying the end rotation
and duration) is untouched. -/
theorem c9_spin_while_running_noop (s : WheelState) (d : SpinDraws)
    (h : s.isSpinning = true) : spinWheelStep s d = Except.ok (s, none) := by
  unfold spinWheelStep
  rw [h]
  simp

/-- Witness for C9 at a concrete running state with a pending queue and an
in-flight plan. -/
theorem c9_spin_while_running_noop_witness :
    spinWheelStep ⟨true, ["x", "y"], ["T1"], 40, 3, none,
        some ⟨some "T1", 2000, 11000⟩⟩ ⟨0, 1, 0, 1, 0⟩
      = Except.ok ((⟨true, ["x", "y"], ["T1"], 40, 3, none,
        some ⟨some "T1", 2000, 11000⟩⟩ : WheelState), none) :=
  c9_spin_while_running_noop _ _ rfl

/-! ### C5: lookup miss never escapes, the spin falls back to Natural mode -/

/-- **C5** (confirmed): when the targeted ticket is absent from the angle map,
`calculateFixedSpinByTicket` raises its lookup error, but the spin-triggering
operation catches it: `spinWheelStep` still returns normally (`Except.ok` — no
exception escapes), the spin proceeds with the natural-mode random delta
`naturalEndRotation` (a total function, so the subsequent natural plan always
succeeds), and the fail-safe clears the corrupted queue. -/
theorem c5_lookup_miss_falls_back (s : WheelState) (m : TicketAngleMap)
    (t : String) (d : SpinDraws)
    (hspin : s.isSpinning = false) (hnames : s.names ≠ [])
    (hqueue : s.queue = [t]) (ht : t ≠ "")
    (hmap : s.angleMap = some m)
    (hmiss : getAngleForTicket t m = none) :
    calculateFixedSpinByTicket s.finalRotation t m
        (profileOfSpinCount (s.spinCount + 1)) d.uRot d.uMicro d.uDur
      = Except.error ("Ticket number \"" ++ t ++ "\" not found in angle map")
    ∧ spinWheelStep s d
      = Except.ok ({ s with
            isSpinning := true
            queue := []
            spinCount := s.spinCount + 1
            plan := some ⟨some t,
              naturalEndRotation s.finalRotation d.nSpins d.nAngle, 11000⟩ },
          some ⟨some t, naturalEndRotation s.finalRotation d.nSpins d.nAngle, 11000⟩) := by
  unfold getAngleForTicket at hmiss
  constructor
  · simp only [calculateFixedSpinByTicket]
    rw [hmiss]
  · have hlen : (s.names.length == 0) = false := by
      simp only [beq_eq_false_iff_ne, ne_eq, List.length_eq_zero]
      exact hnames
    simp only [spinWheelStep, hspin, hlen, Bool.or_self, hqueue, hmap,
      getAngleForTicket, hmiss]
    simp [ht, hmiss]

/-- Witness for C5: one pending unknown ticket `TX` on a wheel with one name
and an empty angle map. -/
theorem c5_lookup_miss_falls_back_witness :
    calculateFixedSpinByTicket 0 "TX" ⟨[], []⟩ (profileOfSpinCount (0 + 1)) 0 0 0
      = Except.error ("Ticket number \"" ++ "TX" ++ "\" not found in angle map")
    ∧ spinWheelStep ⟨false, ["x"], ["TX"], 0, 0, some ⟨[], []⟩, none⟩ ⟨0, 0, 0, 0, 0⟩
      = Except.ok ((⟨true, ["x"], [], 0, 0 + 1, some ⟨[], []⟩,
            some ⟨some "TX", naturalEndRotation 0 0 0, 11000⟩⟩ : WheelState),
          some ⟨some "TX", naturalEndRotation 0 0 0, 11000⟩) := by
  exact c5_lookup_miss_falls_back ⟨false, ["x"], ["TX"], 0, 0, some ⟨[], []⟩, none⟩
    ⟨[], []⟩ "TX" ⟨0, 0, 0, 0, 0⟩ rfl (by simp) rfl (by simp) rfl rfl

/-! ### C6: atomicity of the fixed-tickets queue replacement -/

/-- A list with a duplicate dedups to a strictly different length. -/
theorem dedup_length_ne_of_not_nodup {l : List String} (h : ¬ l.Nodup) :
    l.dedup.length ≠ l.length := by
  intro hlen
  exact h (List.dedup_eq_self.mp ((List.dedup_sublist l).eq_of_length hlen))

/-- **C6** (confirmed): `setFixedTicketsQueue` is atomic.  If the input list
is longer than 3, contains a duplicate, or contains a ticket number absent
from the current entries, the call raises an error and the snapshot —
entries, legacy fixed ticket, queue, timestamp — is left completely
unchanged.  If the input is valid, the stored queue becomes exactly the input
list, in order, with every other field except the timestamp unchanged. -/
theorem c6_set_queue_atomic (tickets : List String) (now : ℕ)
    (s : WheelListSnapshot) :
    ((3 < tickets.length ∨ ¬ tickets.Nodup
        ∨ ∃ t ∈ tickets, ∀ e ∈ s.entries, e.ticketNumber ≠ t) →
      (∃ msg, setFixedTicketsQueue tickets now s = Except.error msg)
      ∧ applySetFixedTicketsQueue tickets now s = s)
    ∧ (tickets.length ≤ 3 → tickets.Nodup →
        (∀ t ∈ tickets, ∃ e ∈ s.entries, e.ticketNumber = t) →
      setFixedTicketsQueue tickets now s
        = Except.ok { s with fixedTicketsQueue := tickets, lastUpdated := now }) := by
  constructor
  · intro hbad
    have herr : ∃ msg, setFixedTicketsQueue tickets now s = Except.error msg := by
      unfold setFixedTicketsQueue
      by_cases h3 : 3 < tickets.length
      · rw [if_pos h3]
        exact ⟨_, rfl⟩
      · rw [if_neg h3]
        by_cases hnd : tickets.Nodup
        · rw [if_neg (by
            simpa [List.dedup_eq_self.mpr hnd] using (not_ne_iff.mpr rfl))]
          rcases hbad with h | h | h
          · exact absurd h h3
          · exact absurd hnd h
          · obtain ⟨t, htmem, hmiss⟩ := h
            rcases hfind : tickets.find?
                (fun t => !(s.entries.any (fun e => e.ticketNumber = t))) with _ | u
            · exfalso
              have := List.find?_eq_none.mp hfind t htmem
              simp only [Bool.not_eq_true', List.any_eq_true, not_exists,
                Bool.not_eq_false] at this
              obtain ⟨e, hemem, he⟩ := this
              exact hmiss e hemem (by simpa using he)
            · exact ⟨_, rfl⟩
        · rw [if_pos (dedup_length_ne_of_not_nodup hnd)]
          exact ⟨_, rfl⟩
    obtain ⟨msg, hmsg⟩ := herr
    exact ⟨⟨msg, hmsg⟩, by simp [applySetFixedTicketsQueue, hmsg]⟩
  · intro hlen hnd hall
    unfold setFixedTicketsQueue
    rw [if_neg (not_lt.mpr hlen),
      if_neg (not_ne_iff.mpr (by rw [List.dedup_eq_self.mpr hnd]))]
    have hfind : tickets.find?
        (fun t => !(s.entries.any (fun e => e.ticketNumber = t))) = none := by
      rw [List.find?_eq_none]
      intro t htmem
      obtain ⟨e, hemem, he⟩ := hall t htmem
      simp only [Bool.not_eq_true', List.any_eq_false, not_forall]
      simp only [Bool.not_eq_true, Bool.not_eq_false, List.any_eq_true]
      exact ⟨e, hemem, by simpa using he⟩
    rw [hfind]

/-- Witness for C6: a duplicate input is rejected leaving the snapshot
untouched, and a valid one-element input replaces the queue. -/
theorem c6_set_queue_atomic_witness :
    ((∃ msg, setFixedTicketsQueue ["a", "a"] 7 ⟨[⟨"a", "x"⟩], none, [], 0⟩
        = Except.error msg)
      ∧ applySetFixedTicketsQueue ["a", "a"] 7 ⟨[⟨"a", "x"⟩], none, [], 0⟩
        = ⟨[⟨"a", "x"⟩], none, [], 0⟩)
    ∧ setFixedTicketsQueue ["a"] 7 ⟨[⟨"a", "x"⟩], none, [], 0⟩
        = Except.ok ⟨[⟨"a", "x"⟩], none, ["a"], 7⟩ := by
  constructor
  · exact (c6_set_queue_atomic ["a", "a"] 7 ⟨[⟨"a", "x"⟩], none, [], 0⟩).1
      (Or.inr (Or.inl (by simp)))
  · exact (c6_set_queue_atomic ["a"] 7 ⟨[⟨"a", "x"⟩], none, [], 0⟩).2
      (by norm_num) (by simp) (by simp)

/-! ### Association-list facts about the JavaScript `Map` model -/

theorem mapGet_cons {α : Type} (p : String × α) (l : List (String × α)) (k : String) :
    mapGet (p :: l) k = if p.1 = k then some p.2 else mapGet l k := by
  unfold mapGet
  by_cases hp : p.1 = k
  · rw [List.find?_cons_of_pos _ (by simpa using hp), if_pos hp]
    rfl
  · rw [List.find?_cons_of_neg _ (by simpa using hp), if_neg hp]

theorem mapSet_cons_ne {α : Type} {p : String × α} {rest : List (String × α)}
    {k : String} {v : α} (hp : p.1 ≠ k) :
    mapSet (p :: rest) k v = p :: mapSet rest k v := by
  unfold mapSet
  by_cases h : rest.any (fun q => q.1 = k)
  · simp [hp, h]
  · simp [hp, h]

theorem mapSet_cons_eq {α : Type} {p : String × α} {rest : List (String × α)}
    {k : String} {v : α} (hp : p.1 = k) :
    mapSet (p :: rest) k v
      = (k, v) :: rest.map (fun q => if q.1 = k then (k, v) else q) := by
  unfold mapSet
  simp [hp]

theorem mapGet_mapSet_self {α : Type} (m : List (String × α)) (k : String) (v : α) :
    mapGet (mapSet m k v) k = some v := by
  induction m with
  | nil => simp [mapSet, mapGet]
  | cons p rest ih =>
      by_cases hp : p.1 = k
      · rw [mapSet_cons_eq hp, mapGet_cons]
        simp
      · rw [mapSet_cons_ne hp, mapGet_cons, if_neg hp]
        exact ih

theorem mapGet_map_overwrite {α : Type} (l : List (String × α)) (k k2 : String)
    (v : α) (h : k2 ≠ k) :
    mapGet (l.map (fun q => if q.1 = k then (k, v) else q)) k2 = mapGet l k2 := by
  induction l with
  | nil => rfl
  | cons q rest ih =>
      by_cases hq : q.1 = k
      · rw [List.map_cons, if_pos hq, mapGet_cons, mapGet_cons,
          if_neg (fun hk => h hk.symm), if_neg (fun hq2 => h (hq ▸ hq2).symm)]
        exact ih
      · rw [List.map_cons, if_neg hq, mapGet_cons, mapGet_cons]
        by_cases hq2 : q.1 = k2
        · rw [if_pos hq2, if_pos hq2]
        · rw [if_neg hq2, if_neg hq2]
          exact ih

theorem mapGet_mapSet_ne {α : Type} (m : List (String × α)) (k k2 : String)
    (v : α) (h : k2 ≠ k) : mapGet (mapSet m k v) k2 = mapGet m k2 := by
  unfold mapSet
  by_cases hc : m.any (fun q => q.1 = k)
  · rw [if_pos hc]
    exact mapGet_map_overwrite m k k2 v h
  · rw [if_neg hc]
    unfold mapGet
    rw [List.find?_append]
    have hnone : List.find? (fun q => q.1 = k2) [(k, v)] = none := by
      rw [List.find?_cons_of_neg _ (by simp; exact fun hk => h hk.symm)]
      rfl
    rw [hnone]
    simp

theorem mapSet_keys {α : Type} (m : List (String × α)) (k : String) (v : α) :
    (mapSet m k v).map Prod.fst
      = if m.any (fun q => q.1 = k) then m.map Prod.fst
        else m.map Prod.fst ++ [k] := by
  unfold mapSet
  by_cases hc : m.any (fun q => q.1 = k)
  · rw [if_pos hc, if_pos hc, List.map_map]
    refine List.map_congr_left ?_
    intro q _
    by_cases hq : q.1 = k
    · simp [hq]
    · simp [hq]
  · rw [if_neg hc, if_neg hc]
    simp

theorem any_key_iff {α : Type} (m : List (String × α)) (k : String) :
    m.any (fun q => q.1 = k) = true ↔ k ∈ m.map Prod.fst := by
  simp [List.any_eq_true, List.mem_map]

/-! ### Facts about `buildTicketAngleMap` -/

theorem buildFrom_get_of_not_mem (count : ℕ) (es : List WheelEntry) (t : String) :
    ∀ (i : ℕ) (m : TicketAngleMap), t ∉ es.map WheelEntry.ticketNumber →
      mapGet (buildFrom count i es m).ticketToAngle t = mapGet m.ticketToAngle t
      ∧ mapGet (buildFrom count i es m).ticketToIndex t = mapGet m.ticketToIndex t := by
  induction es with
  | nil => intro i m _; exact ⟨rfl, rfl⟩
  | cons e rest ih =>
      intro i m hmem
      rw [List.map_cons, List.mem_cons] at hmem
      push_neg at hmem
      obtain ⟨hne, hrest⟩ := hmem
      have step := ih (i + 1)
        ⟨mapSet m.ticketToAngle e.ticketNumber (segmentCenterAngle count i),
         mapSet m.ticketToIndex e.ticketNumber i⟩ hrest
      refine ⟨?_, ?_⟩
      · rw [show buildFrom count i (e :: rest) m
            = buildFrom count (i + 1) rest
                ⟨mapSet m.ticketToAngle e.ticketNumber (segmentCenterAngle count i),
                 mapSet m.ticketToIndex e.ticketNumber i⟩ from rfl]
        rw [step.1]
        exact mapGet_mapSet_ne _ _ _ _ hne
      · rw [show buildFrom count i (e :: rest) m
            = buildFrom count (i + 1) rest
                ⟨mapSet m.ticketToAngle e.ticketNumber (segmentCenterAngle count i),
                 mapSet m.ticketToIndex e.ticketNumber i⟩ from rfl]
        rw [step.2]
        exact mapGet_mapSet_ne _ _ _ _ hne

theorem buildFrom_get_last (count : ℕ) (es : List WheelEntry) (t : String) :
    ∀ (i0 : ℕ) (m : TicketAngleMap) (j : ℕ) (hj : j < es.length),
      (es.get ⟨j, hj⟩).ticketNumber = t →
      (∀ j2 (hj2 : j2 < es.length), j < j2 → (es.get ⟨j2, hj2⟩).ticketNumber ≠ t) →
      mapGet (buildFrom count i0 es m).ticketToAngle t
          = some (segmentCenterAngle count (i0 + j))
      ∧ mapGet (buildFrom count i0 es m).ticketToIndex t = some (i0 + j) := by
  induction es with
  | nil => intro i0 m j hj; exact absurd hj (by simp)
  | cons e rest ih =>
      intro i0 m j hj hget hlast
      rcases j with _ | j
      · -- the head is the last occurrence: t does not occur in the tail
        have hrest : t ∉ rest.map WheelEntry.ticketNumber := by
          intro hmem
          obtain ⟨e2, he2, he2t⟩ := List.mem_map.mp hmem
          obtain ⟨⟨j2, hj2⟩, hj2get⟩ := List.mem_iff_get.mp he2
          refine hlast (j2 + 1) (by simpa using Nat.succ_lt_succ hj2)
            (Nat.succ_pos j2) ?_
          show (rest.get ⟨j2, hj2⟩).ticketNumber = t
          rw [hj2get]
          exact he2t
        have step := buildFrom_get_of_not_mem count rest t (i0 + 1)
          ⟨mapSet m.ticketToAngle e.ticketNumber (segmentCenterAngle count i0),
           mapSet m.ticketToIndex e.ticketNumber i0⟩ hrest
        have hget0 : e.ticketNumber = t := hget
        refine ⟨?_, ?_⟩
        · rw [show buildFrom count i0 (e :: rest) m
              = buildFrom count (i0 + 1) rest
                  ⟨mapSet m.ticketToAngle e.ticketNumber (segmentCenterAngle count i0),
                   mapSet m.ticketToIndex e.ticketNumber i0⟩ from rfl,
            step.1, hget0, Nat.add_zero]
          exact mapGet_mapSet_self _ _ _
        · rw [show buildFrom count i0 (e :: rest) m
              = buildFrom count (i0 + 1) rest
                  ⟨mapSet m.ticketToAngle e.ticketNumber (segmentCenterAngle count i0),
                   mapSet m.ticketToIndex e.ticketNumber i0⟩ from rfl,
            step.2, hget0, Nat.add_zero]
          exact mapGet_mapSet_self _ _ _
      · have hj2 : j < rest.length := by simpa using Nat.lt_of_succ_lt_succ hj
        have hget2 : (rest.get ⟨j, hj2⟩).ticketNumber = t := hget
        have hlast2 : ∀ j3 (hj3 : j3 < rest.length), j < j3 →
            (rest.get ⟨j3, hj3⟩).ticketNumber ≠ t := by
          intro j3 hj3 hgt
          have := hlast (j3 + 1) (by simpa using Nat.succ_lt_succ hj3)
            (Nat.succ_lt_succ hgt)
          simpa using this
        have step := ih (i0 + 1)
          ⟨mapSet m.ticketToAngle e.ticketNumber (segmentCenterAngle count i0),
           mapSet m.ticketToIndex e.ticketNumber i0⟩ j hj2 hget2 hlast2
        have harith : i0 + 1 + j = i0 + (j + 1) := by omega
        refine ⟨?_, ?_⟩
        · rw [show buildFrom count i0 (e :: rest) m
              = buildFrom count (i0 + 1) rest
                  ⟨mapSet m.ticketToAngle e.ticketNumber (segmentCenterAngle count i0),
                   mapSet m.ticketToIndex e.ticketNumber i0⟩ from rfl,
            step.1, harith]
        · rw [show buildFrom count i0 (e :: rest) m
              = buildFrom count (i0 + 1) rest
                  ⟨mapSet m.ticketToAngle e.ticketNumber (segmentCenterAngle count i0),
                   mapSet m.ticketToIndex e.ticketNumber i0⟩ from rfl,
            step.2, harith]

theorem buildFrom_keys (count : ℕ) (es : List WheelEntry) :
    ∀ (i : ℕ) (m : TicketAngleMap),
      ((m.ticketToAngle.map Prod.fst).Nodup) →
      ((buildFrom count i es m).ticketToAngle.map Prod.fst).Nodup
      ∧ ((buildFrom count i es m).ticketToAngle.map Prod.fst).toFinset
          = (m.ticketToAngle.map Prod.fst).toFinset
            ∪ (es.map WheelEntry.ticketNumber).toFinset := by
  induction es with
  | nil =>
      intro i m hm
      exact ⟨hm, by rw [show buildFrom count i [] m = m from rfl]; simp⟩
  | cons e rest ih =>
      intro i m hm
      have hstep : buildFrom count i (e :: rest) m
          = buildFrom count (i + 1) rest
              ⟨mapSet m.ticketToAngle e.ticketNumber (segmentCenterAngle count i),
               mapSet m.ticketToIndex e.ticketNumber i⟩ := rfl
      have hkeys := mapSet_keys m.ticketToAngle e.ticketNumber (segmentCenterAngle count i)
      by_cases hc : m.ticketToAngle.any (fun q => q.1 = e.ticketNumber)
      · rw [if_pos hc] at hkeys
        have hmem : e.ticketNumber ∈ m.ticketToAngle.map Prod.fst :=
          (any_key_iff _ _).mp hc
        obtain ⟨hnd, hfin⟩ := ih (i + 1)
          ⟨mapSet m.ticketToAngle e.ticketNumber (segmentCenterAngle count i),
           mapSet m.ticketToIndex e.ticketNumber i⟩ (by rw [hkeys]; exact hm)
        refine ⟨by rw [hstep]; exact hnd, ?_⟩
        rw [hstep, hfin, hkeys, List.map_cons, List.toFinset_cons]
        rw [Finset.union_insert, Finset.insert_eq_self.mpr
          (Finset.mem_union_left _ (List.mem_toFinset.mpr hmem))]
      · rw [if_neg hc] at hkeys
        have hnotmem : e.ticketNumber ∉ m.ticketToAngle.map Prod.fst := by
          intro hmem
          exact hc ((any_key_iff _ _).mpr hmem)
        have hnd2 : ((mapSet m.ticketToAngle e.ticketNumber
            (segmentCenterAngle count i)).map Prod.fst).Nodup := by
          rw [hkeys]
          simp [List.nodup_append, hm, hnotmem]
        obtain ⟨hnd, hfin⟩ := ih (i + 1)
          ⟨mapSet m.ticketToAngle e.ticketNumber (segmentCenterAngle count i),
           mapSet m.ticketToIndex e.ticketNumber i⟩ hnd2
        refine ⟨by rw [hstep]; exact hnd, ?_⟩
        rw [hstep, hfin, hkeys, List.map_cons, List.toFinset_cons, List.toFinset_append]
        simp only [List.toFinset_cons, List.toFinset_nil]
        rw [Finset.union_insert]
        ext x
        simp [or_comm, or_assoc, or_left_comm]

/-- The size of the built angle map is the number of distinct ticket numbers
in the entry list. -/
theorem build_size (entries : List WheelEntry) :
    (buildTicketAngleMap entries).ticketToAngle.length
      = (entries.map WheelEntry.ticketNumber).dedup.length := by
  obtain ⟨hnd, hfin⟩ := buildFrom_keys entries.length entries 0 ⟨[], []⟩ (by simp)
  have hcard : ((buildTicketAngleMap entries).ticketToAngle.map Prod.fst).toFinset.card
      = ((buildTicketAngleMap entries).ticketToAngle.map Prod.fst).length :=
    List.toFinset_card_of_nodup hnd
  have hlen : ((buildTicketAngleMap entries).ticketToAngle.map Prod.fst).length
      = (buildTicketAngleMap entries).ticketToAngle.length := List.length_map _ _
  have hfin2 : ((buildTicketAngleMap entries).ticketToAngle.map Prod.fst).toFinset
      = (entries.map WheelEntry.ticketNumber).toFinset := by
    rw [show buildTicketAngleMap entries = buildFrom entries.length 0 entries ⟨[], []⟩
      from rfl, hfin]
    simp
  rw [← hlen, ← hcard, hfin2, List.card_toFinset]

/-! ### C3: the angle-map build formula (requires distinct identifiers) -/

/-- **C3** (counterexample): with the duplicate-identifier list
`[("A", x), ("A", y)]` (length 2), looking up the identifier of the entity at
position 0 does not return the claimed stored angle
`normalize((0 * 180 - 90) + 90) = 0` — the second `Map.set` overwrote it with
position 1's angle, 180. -/
theorem c3_duplicate_counterexample :
    ¬ (getAngleForTicket "A" (buildTicketAngleMap [⟨"A", "x"⟩, ⟨"A", "y"⟩])
        = some (normalize360 (((0 : ℚ) * (360 / 2) - 90) + (360 / 2) / 2))) := by
  have hval : getAngleForTicket "A" (buildTicketAngleMap [⟨"A", "x"⟩, ⟨"A", "y"⟩])
      = some (segmentCenterAngle 2 1) := by
    simp [buildTicketAngleMap, buildFrom, mapSet, mapGet, getAngleForTicket]
  rw [hval]
  have h1 : segmentCenterAngle 2 1 = 180 := by
    unfold segmentCenterAngle
    norm_num
    exact normalize360_of_mem (by norm_num) (by norm_num)
  have h0 : normalize360 (((0 : ℚ) * (360 / 2) - 90) + (360 / 2) / 2) = 0 := by
    norm_num
    exact normalize360_of_mem (by norm_num) (by norm_num)
  rw [h1, h0]
  simp

/-- **C3** (amended: the claim holds for entry lists whose ticket numbers are
pairwise distinct; with duplicates the later occurrence overwrites the earlier
one, see the C10 theorem): for every non-empty list of entries with distinct
`ticketNumber`s, the built map stores for the entity at 0-based position `i`
exactly `normalize((i * (360/N) - 90) + (360/N)/2)`, and `getAngleForTicket`
returns exactly this stored angle (the lookup reads only the
identifier-to-angle association, never the position). -/
theorem c3_angle_map_formula (entries : List WheelEntry)
    (hnd : (entries.map WheelEntry.ticketNumber).Nodup)
    (i : ℕ) (hi : i < entries.length) :
    getAngleForTicket (entries.get ⟨i, hi⟩).ticketNumber (buildTicketAngleMap entries)
      = some (normalize360 (((i : ℚ) * (360 / (entries.length : ℚ)) - 90)
          + (360 / (entries.length : ℚ)) / 2)) := by
  have hlast : ∀ j2 (hj2 : j2 < entries.length), i < j2 →
      (entries.get ⟨j2, hj2⟩).ticketNumber ≠ (entries.get ⟨i, hi⟩).ticketNumber := by
    intro j2 hj2 hgt heq
    have hmap : (entries.map WheelEntry.ticketNumber).get ⟨j2, by simpa using hj2⟩
        = (entries.map WheelEntry.ticketNumber).get ⟨i, by simpa using hi⟩ := by
      simpa using heq
    have hval := congrArg Fin.val (List.Nodup.get_inj_iff hnd |>.mp hmap)
    simp at hval
    omega
  have hmain := buildFrom_get_last entries.length entries
    (entries.get ⟨i, hi⟩).ticketNumber 0 ⟨[], []⟩ i hi rfl hlast
  have : getAngleForTicket (entries.get ⟨i, hi⟩).ticketNumber (buildTicketAngleMap entries)
      = some (segmentCenterAngle entries.length (0 + i)) := hmain.1
  rw [this, Nat.zero_add]
  rfl

/-- Witness for the amended C3: three distinct tickets, middle position. -/
theorem c3_angle_map_formula_witness :
    getAngleForTicket
        ((([⟨"T1", "a"⟩, ⟨"T2", "b"⟩, ⟨"T3", "c"⟩] : List WheelEntry).get
          ⟨1, by norm_num⟩).ticketNumber)
        (buildTicketAngleMap [⟨"T1", "a"⟩, ⟨"T2", "b"⟩, ⟨"T3", "c"⟩])
      = some (normalize360 ((((1 : ℕ) : ℚ) * (360 / ((3 : ℕ) : ℚ)) - 90)
          + (360 / ((3 : ℕ) : ℚ)) / 2)) := by
  exact c3_angle_map_formula [⟨"T1", "a"⟩, ⟨"T2", "b"⟩, ⟨"T3", "c"⟩] (by simp) 1 (by norm_num)

/-! ### C10: duplicate ticket numbers — last occurrence wins -/

/-- **C10** (confirmed): if the entry list contains duplicate ticket numbers,
each later `Map.set` silently overwrites the earlier binding: lookup of a
ticket returns the angle and the index of its **last** occurrence, the map
holds one binding per distinct ticket number (so its size is the dedup count
of the ticket list, possibly smaller than the entry count), and the
micro-offset clamp inside `calculateFixedSpinByTicket` divides 360 by that
deduplicated map size, not by the original entry count. -/
theorem c10_duplicate_last_wins (entries : List WheelEntry) (t : String) (i : ℕ)
    (hi : i < entries.length)
    (ht : (entries.get ⟨i, hi⟩).ticketNumber = t)
    (hlast : ∀ j (hj : j < entries.length), i < j →
      (entries.get ⟨j, hj⟩).ticketNumber ≠ t) :
    getAngleForTicket t (buildTicketAngleMap entries)
        = some (segmentCenterAngle entries.length i)
    ∧ mapGet (buildTicketAngleMap entries).ticketToIndex t = some i
    ∧ (buildTicketAngleMap entries).ticketToAngle.length
        = (entries.map WheelEntry.ticketNumber).dedup.length
    ∧ ∀ (p : RotationProfile) (u : ℚ),
        microOffset (buildTicketAngleMap entries).ticketToAngle.length p u
          = (u - 1 / 2) * min (profileBaseMicroOffsetRange p)
              ((360 / (((entries.map WheelEntry.ticketNumber).dedup.length : ℕ) : ℚ))
                * (3 / 10)) := by
  have hmain := buildFrom_get_last entries.length entries t 0 ⟨[], []⟩ i hi ht hlast
  refine ⟨by rw [Nat.zero_add] at hmain; exact hmain.1,
    by rw [Nat.zero_add] at hmain; exact hmain.2, build_size entries, ?_⟩
  intro p u
  rw [microOffset, adaptiveMicroOffsetRange, build_size entries]

/-- Witness for C10: `["A", "B", "A"]` — the last occurrence of `A` is
position 2, the map size is 2 < 3, and the clamp divides 360 by 2. -/
theorem c10_duplicate_last_wins_witness :
    getAngleForTicket "A" (buildTicketAngleMap [⟨"A", "x"⟩, ⟨"B", "y"⟩, ⟨"A", "z"⟩])
        = some (segmentCenterAngle 3 2)
    ∧ mapGet (buildTicketAngleMap
        [⟨"A", "x"⟩, ⟨"B", "y"⟩, ⟨"A", "z"⟩]).ticketToIndex "A" = some 2
    ∧ (buildTicketAngleMap [⟨"A", "x"⟩, ⟨"B", "y"⟩, ⟨"A", "z"⟩]).ticketToAngle.length
        = ((["A", "B", "A"] : List String).dedup.length)
    ∧ ∀ (p : RotationProfile) (u : ℚ),
        microOffset (buildTicketAngleMap
            [⟨"A", "x"⟩, ⟨"B", "y"⟩, ⟨"A", "z"⟩]).ticketToAngle.length p u
          = (u - 1 / 2) * min (profileBaseMicroOffsetRange p)
              ((360 / (((["A", "B", "A"] : List String).dedup.length : ℕ) : ℚ)) * (3 / 10)) := by
  have h := c10_duplicate_last_wins [⟨"A", "x"⟩, ⟨"B", "y"⟩, ⟨"A", "z"⟩] "A" 2
    (by norm_num) rfl (by intro j hj hgt; simp at hj; omega)
  simpa using h

/-! ### C2: the winner-resolution slices partition [0, 360) -/

/-- The pointer angle re-based to the slice grid: the unique `b ∈ [0, 360)`
congruent to `a + 90` modulo 360, so that slice `i` of the resolver contains
`a` exactly when `b` lies in `[i * width, (i+1) * width)`. -/
def pointerKey (a : ℚ) : ℚ := if a < 270 then a + 90 else a - 270

theorem pointerKey_bounds {a : ℚ} (h0 : 0 ≤ a) (h1 : a < 360) :
    0 ≤ pointerKey a ∧ pointerKey a < 360 := by
  unfold pointerKey
  split_ifs with h
  · constructor <;> linarith
  · constructor <;> linarith

set_option maxHeartbeats 1000000 in
/-- Characterization of the winner-resolution membership test: for `0 < n`,
`i < n` and `a ∈ [0, 360)`, the code's wraparound-aware interval test for
slice `i` holds exactly when the re-based pointer angle `pointerKey a` lies in
`[i * (360/n), (i+1) * (360/n))`. -/
theorem inSlice_iff (n : ℕ) (hn : 0 < n) (i : ℕ) (hi : i < n) (a : ℚ)
    (h0 : 0 ≤ a) (h1 : a < 360) :
    inSlice n i a = true ↔
      (i : ℚ) * (360 / (n : ℚ)) ≤ pointerKey a
      ∧ pointerKey a < ((i : ℚ) + 1) * (360 / (n : ℚ)) := by
  have hnq : (0 : ℚ) < (n : ℚ) := by exact_mod_cast hn
  have hn1 : (1 : ℚ) ≤ (n : ℚ) := by exact_mod_cast hn
  have hw0 : (0 : ℚ) < 360 / (n : ℚ) := by positivity
  have hnw : (n : ℚ) * (360 / (n : ℚ)) = 360 := by field_simp
  have hw360 : 360 / (n : ℚ) ≤ 360 := by
    rw [div_le_iff hnq]
    nlinarith
  have hiq : ((i : ℚ) + 1) ≤ (n : ℚ) := by exact_mod_cast hi
  have hiw1 : ((i : ℚ) + 1) * (360 / (n : ℚ)) ≤ 360 := by nlinarith
  have hiw0 : (0 : ℚ) ≤ (i : ℚ) * (360 / (n : ℚ)) := by positivity
  have hkey : ((i : ℚ) + 1) * (360 / (n : ℚ))
      = (i : ℚ) * (360 / (n : ℚ)) + 360 / (n : ℚ) := by ring
  have hiwlt : (i : ℚ) * (360 / (n : ℚ)) < 360 := by nlinarith
  have hs_eval : sliceStartAngle n i
      = if (i : ℚ) * (360 / (n : ℚ)) < 90 then (i : ℚ) * (360 / (n : ℚ)) + 270
        else (i : ℚ) * (360 / (n : ℚ)) - 90 := by
    unfold sliceStartAngle
    rw [show (i : ℚ) * (360 / (n : ℚ)) - 90 + 360
        = (i : ℚ) * (360 / (n : ℚ)) + 270 by ring]
    by_cases hcase : (i : ℚ) * (360 / (n : ℚ)) < 90
    · rw [if_pos hcase]
      exact jsRem_of_nonneg_lt (by linarith) (by linarith)
    · rw [if_neg hcase]
      push_neg at hcase
      rw [jsRem_of_ge_360 (by linarith) (by linarith)]
      ring
  have he_eval : sliceStartAngle n (i + 1)
      = if ((i : ℚ) + 1) * (360 / (n : ℚ)) < 90
        then ((i : ℚ) + 1) * (360 / (n : ℚ)) + 270
        else ((i : ℚ) + 1) * (360 / (n : ℚ)) - 90 := by
    unfold sliceStartAngle
    push_cast
    rw [show ((i : ℚ) + 1) * (360 / (n : ℚ)) - 90 + 360
        = ((i : ℚ) + 1) * (360 / (n : ℚ)) + 270 by ring]
    by_cases hcase : ((i : ℚ) + 1) * (360 / (n : ℚ)) < 90
    · rw [if_pos hcase]
      exact jsRem_of_nonneg_lt (by nlinarith) (by linarith)
    · rw [if_neg hcase]
      push_neg at hcase
      rw [jsRem_of_ge_360 (by linarith) (by linarith)]
      ring
  simp only [inSlice, hs_eval, he_eval]
  unfold pointerKey
  by_cases hA : ((i : ℚ) + 1) * (360 / (n : ℚ)) < 90
  · -- regime A: the whole slice lies before the top-of-wheel cut
    have hiA : (i : ℚ) * (360 / (n : ℚ)) < 90 := by nlinarith
    rw [if_pos hiA, if_pos hA, if_pos (by nlinarith)]
    simp only [Bool.and_eq_true, decide_eq_true_eq]
    by_cases ha : a < 270
    · rw [if_pos ha]
      constructor
      · rintro ⟨h2, h3⟩
        exfalso
        linarith
      · rintro ⟨h2, h3⟩
        exfalso
        linarith
    · rw [if_neg ha]
      push_neg at ha
      constructor
      · rintro ⟨h2, h3⟩
        exact ⟨by linarith, by linarith⟩
      · rintro ⟨h2, h3⟩
        exact ⟨by linarith, by linarith⟩
  · by_cases hB : (i : ℚ) * (360 / (n : ℚ)) < 90
    · -- regime B: the slice crosses the 0°/360° wraparound
      push_neg at hA
      rw [if_pos hB, if_neg (not_lt.mpr hA), if_neg (by
        rw [not_lt]
        linarith [hkey, hw360])]
      simp only [Bool.or_eq_true, decide_eq_true_eq]
      by_cases ha : a < 270
      · rw [if_pos ha]
        constructor
        · rintro (h2 | h2)
          · exfalso
            linarith
          · exact ⟨by linarith, by linarith⟩
        · rintro ⟨h2, h3⟩
          right
          linarith
      · rw [if_neg ha]
        push_neg at ha
        constructor
        · rintro (h2 | h2)
          · exact ⟨by linarith, by linarith⟩
          · exfalso
            linarith
        · rintro ⟨h2, h3⟩
          left
          linarith
    · -- regime C: the whole slice lies after the cut
      push_neg at hA hB
      rw [if_neg (not_lt.mpr hB), if_neg (not_lt.mpr hA), if_pos (by linarith [hkey])]
      simp only [Bool.and_eq_true, decide_eq_true_eq]
      by_cases ha : a < 270
      · rw [if_pos ha]
        constructor
        · rintro ⟨h2, h3⟩
          exact ⟨by linarith, by linarith⟩
        · rintro ⟨h2, h3⟩
          exact ⟨by linarith, by linarith⟩
      · rw [if_neg ha]
        push_neg at ha
        constructor
        · rintro ⟨h2, h3⟩
          exfalso
          linarith
        · rintro ⟨h2, h3⟩
          exfalso
          linarith

/-- **C2** (confirmed): for every entity count `n > 0`, the `n` half-open
intervals `[normalize(i*(360/n) - 90), normalize((i+1)*(360/n) - 90))` of the
winner-resolution loop — with the wraparound test `angle ≥ start ∨
angle < end` for intervals crossing 0°/360° — exactly partition `[0, 360)`:
every angle lies in exactly one interval; consequently the scanning loop
always finds a slice, so under exact arithmetic the closest-center fallback
branch is unreachable. -/
theorem c2_segment_partition (n : ℕ) (hn : 0 < n) (a : ℚ)
    (h0 : 0 ≤ a) (h1 : a < 360) :
    (∃! i : ℕ, i < n ∧ inSlice n i a = true) ∧ findSliceIndex n a ≠ none := by
  have hnq : (0 : ℚ) < (n : ℚ) := by exact_mod_cast hn
  have hw0 : (0 : ℚ) < 360 / (n : ℚ) := by positivity
  have hnw : (n : ℚ) * (360 / (n : ℚ)) = 360 := by field_simp
  obtain ⟨hb0, hb1⟩ := pointerKey_bounds h0 h1
  have hdiv0 : (0 : ℚ) ≤ pointerKey a / (360 / (n : ℚ)) := by positivity
  have hle : ((⌊pointerKey a / (360 / (n : ℚ))⌋₊ : ℚ))
      ≤ pointerKey a / (360 / (n : ℚ)) := Nat.floor_le hdiv0
  have hlt : pointerKey a / (360 / (n : ℚ))
      < ⌊pointerKey a / (360 / (n : ℚ))⌋₊ + 1 := Nat.lt_floor_add_one _
  have hi0n : ⌊pointerKey a / (360 / (n : ℚ))⌋₊ < n := by
    refine (Nat.floor_lt hdiv0).mpr ?_
    rw [div_lt_iff hw0]
    nlinarith
  have hchar : ((⌊pointerKey a / (360 / (n : ℚ))⌋₊ : ℚ)) * (360 / (n : ℚ)) ≤ pointerKey a
      ∧ pointerKey a
        < ((⌊pointerKey a / (360 / (n : ℚ))⌋₊ : ℚ) + 1) * (360 / (n : ℚ)) := by
    constructor
    · rw [← le_div_iff hw0]
      exact hle
    · rw [← div_lt_iff hw0]
      push_cast
      push_cast at hlt
      linarith
  have hmem : inSlice n ⌊pointerKey a / (360 / (n : ℚ))⌋₊ a = true :=
    (inSlice_iff n hn _ hi0n a h0 h1).mpr hchar
  have huniq : ∀ j k : ℕ, j < n → k < n →
      inSlice n j a = true → inSlice n k a = true → j = k := by
    intro j k hj hk hmj hmk
    have hcj := (inSlice_iff n hn j hj a h0 h1).mp hmj
    have hck := (inSlice_iff n hn k hk a h0 h1).mp hmk
    by_contra hne
    rcases Nat.lt_or_ge j k with hjk | hkj
    · have hcast : ((j : ℚ) + 1) ≤ (k : ℚ) := by exact_mod_cast hjk
      have hmono : ((j : ℚ) + 1) * (360 / (n : ℚ)) ≤ (k : ℚ) * (360 / (n : ℚ)) :=
        mul_le_mul_of_nonneg_right hcast (le_of_lt hw0)
      linarith [hcj.2, hck.1]
    · have hkj2 : k < j := lt_of_le_of_ne hkj (fun h => hne h.symm)
      have hcast : ((k : ℚ) + 1) ≤ (j : ℚ) := by exact_mod_cast hkj2
      have hmono : ((k : ℚ) + 1) * (360 / (n : ℚ)) ≤ (j : ℚ) * (360 / (n : ℚ)) :=
        mul_le_mul_of_nonneg_right hcast (le_of_lt hw0)
      linarith [hck.2, hcj.1]
  refine ⟨⟨⌊pointerKey a / (360 / (n : ℚ))⌋₊, ⟨hi0n, hmem⟩, ?_⟩, ?_⟩
  · rintro y ⟨hy, hmy⟩
    exact huniq y _ hy hi0n hmy hmem
  · intro hnone
    unfold findSliceIndex at hnone
    have := List.find?_eq_none.mp hnone ⌊pointerKey a / (360 / (n : ℚ))⌋₊
      (List.mem_range.mpr hi0n)
    exact absurd hmem (by simpa using this)

/-- Witness for C2 at the failing-input configuration of C1: 4 slices, pointer
angle 225° — exactly one slice (index 3) contains it and the scan succeeds. -/
theorem c2_segment_partition_witness :
    (∃! i : ℕ, i < 4 ∧ inSlice 4 i 225 = true) ∧ findSliceIndex 4 225 ≠ none :=
  c2_segment_partition 4 (by norm_num) 225 (by norm_num) (by norm_num)

/-! ### C8: FIFO queue consumption and exhaustion -/

theorem names_len_beq_false {s : WheelState} (h : s.names ≠ []) :
    (s.names.length == 0) = false := by
  simp only [beq_eq_false_iff_ne, ne_eq, List.length_eq_zero]
  exact h

theorem calc_isOk_of_found (r : ℚ) (t : String) (m : TicketAngleMap)
    (p : RotationProfile) (u1 u2 u3 θ : ℚ)
    (hθ : mapGet m.ticketToAngle t = some θ) :
    ∃ res : FixedSpinResult,
      calculateFixedSpinByTicket r t m p u1 u2 u3 = Except.ok res := by
  unfold calculateFixedSpinByTicket
  rw [hθ]
  exact ⟨_, rfl⟩

/-- A spin from an idle state with an empty queue: the Natural branch runs,
nothing is consumed, and after completion the wheel is idle again at the
natural end rotation. -/
theorem spinCycle_natural (s : WheelState) (d : SpinDraws)
    (h1 : s.isSpinning = false) (h2 : s.names ≠ []) (h3 : s.queue = []) :
    spinCycle s d = ({ s with
        isSpinning := false
        queue := []
        spinCount := s.spinCount + 1
        plan := some ⟨none, naturalEndRotation s.finalRotation d.nSpins d.nAngle, 11000⟩
        finalRotation := naturalEndRotation s.finalRotation d.nSpins d.nAngle },
      some ⟨none, naturalEndRotation s.finalRotation d.nSpins d.nAngle, 11000⟩) := by
  simp [spinCycle, spinWheelStep, h1, names_len_beq_false h2, h3]

/-- A spin from an idle state whose queue head resolves in the angle map:
exactly the head is consumed, the spin is targeted at it, and after
completion the wheel is idle with the tail queue. -/
theorem spinCycle_targeted (s : WheelState) (d : SpinDraws) (h : String)
    (tl : List String) (m : TicketAngleMap) (θ : ℚ)
    (h1 : s.isSpinning = false) (h2 : s.names ≠ []) (h3 : s.queue = h :: tl)
    (hh : h ≠ "") (hm : s.angleMap = some m)
    (hθ : mapGet m.ticketToAngle h = some θ) :
    ∃ p : SpinStart, p.ticket = some h ∧
      spinCycle s d = ({ s with
          isSpinning := false
          queue := tl
          spinCount := s.spinCount + 1
          plan := some p
          finalRotation := p.endRotation }, some p) := by
  obtain ⟨res, hres⟩ := calc_isOk_of_found s.finalRotation h m
    (profileOfSpinCount (s.spinCount + 1)) d.uRot d.uMicro d.uDur θ hθ
  refine ⟨⟨some h, res.endRotation, res.duration⟩, rfl, ?_⟩
  simp [spinCycle, spinWheelStep, h1, names_len_beq_false h2, h3, hh, hm,
    getAngleForTicket, hθ, hres]

/-- Once the queue is empty, every further completed spin is Natural-mode and
leaves the queue empty. -/
theorem spinTrace_natural (k : ℕ) : ∀ (s : WheelState) (ds : ℕ → SpinDraws),
    s.isSpinning = false → s.names ≠ [] → s.queue = [] →
    spinTrace s ds k = List.replicate k (some none) := by
  induction k with
  | zero => intro s ds _ _ _; rfl
  | succ k ih =>
      intro s ds h1 h2 h3
      rw [show spinTrace s ds (k + 1)
          = ((spinCycle s (ds 0)).2.map SpinStart.ticket)
            :: spinTrace (spinCycle s (ds 0)).1 (fun j => ds (j + 1)) k from rfl]
      rw [spinCycle_natural s (ds 0) h1 h2 h3, List.replicate_succ]
      congr 1
      exact ih _ (fun j => ds (j + 1)) rfl h2 rfl

theorem c8_aux (m : TicketAngleMap) (q : List String) :
    ∀ (s : WheelState) (ds : ℕ → SpinDraws) (k : ℕ),
      s.queue = q → s.isSpinning = false → s.names ≠ [] → s.angleMap = some m →
      (∀ t ∈ q, t ≠ "" ∧ ∃ θ, mapGet m.ticketToAngle t = some θ) →
      spinTrace s ds (q.length + k)
          = q.map (fun t => some (some t)) ++ List.replicate k (some none)
      ∧ (∀ j, j ≤ q.length → (spinIterate s ds j).queue = q.drop j) := by
  induction q with
  | nil =>
      intro s ds k hq h1 h2 hm _
      refine ⟨?_, ?_⟩
      · rw [show ([] : List String).length + k = k from by simp]
        rw [spinTrace_natural k s ds h1 h2 hq]
        simp
      · intro j hj
        have hj0 : j = 0 := Nat.le_zero.mp (by simpa using hj)
        subst hj0
        simpa using hq
  | cons h tl ih =>
      intro s ds k hq h1 h2 hm hall
      obtain ⟨hh, θ, hθ⟩ := hall h (List.mem_cons_self h tl)
      obtain ⟨p, hpt, hcyc⟩ := spinCycle_targeted s (ds 0) h tl m θ h1 h2 hq hh hm hθ
      have hrest : ∀ t ∈ tl, t ≠ "" ∧ ∃ θ2, mapGet m.ticketToAngle t = some θ2 :=
        fun t ht => hall t (List.mem_cons_of_mem h ht)
      have hstep := ih ({ s with
          isSpinning := false
          queue := tl
          spinCount := s.spinCount + 1
          plan := some p
          finalRotation := p.endRotation }) (fun j => ds (j + 1)) k rfl rfl h2 hm hrest
      refine ⟨?_, ?_⟩
      · rw [show (h :: tl).length + k = (tl.length + k) + 1 from by simp [Nat.succ_add]]
        rw [show spinTrace s ds ((tl.length + k) + 1)
            = ((spinCycle s (ds 0)).2.map SpinStart.ticket)
              :: spinTrace (spinCycle s (ds 0)).1 (fun j => ds (j + 1)) (tl.length + k)
          from rfl]
        rw [hcyc]
        dsimp only
        rw [hstep.1]
        simp [hpt]
      · intro j hj
        rcases j with _ | j
        · simpa using hq
        · rw [show spinIterate s ds (j + 1)
              = spinIterate (spinCycle s (ds 0)).1 (fun i => ds (i + 1)) j from rfl]
          rw [hcyc]
          exact hstep.2 j (by simpa using hj)

/-- **C8** (confirmed): spins consume the fixed-ticket queue destructively in
FIFO order — over the first `queue.length` completed spins, spin `i` consumes
exactly the `i`-th queued identifier (each spin removes exactly the head
before planning, as the `drop` equation for every prefix shows), and every
one of the `k` subsequent spins takes the Natural-mode branch (`some none` in
the trace: a spin started with no ticket), with no administrative action in
between.  The hypothesis that each queued ticket is nonempty and resolves in
the angle map matches the validation performed at queue-assignment time. -/
theorem c8_fifo_consumption_and_exhaustion (s : WheelState) (m : TicketAngleMap)
    (ds : ℕ → SpinDraws) (k : ℕ)
    (h1 : s.isSpinning = false) (h2 : s.names ≠ []) (hm : s.angleMap = some m)
    (hq : ∀ t ∈ s.queue, t ≠ "" ∧ ∃ θ, mapGet m.ticketToAngle t = some θ) :
    spinTrace s ds (s.queue.length + k)
        = s.queue.map (fun t => some (some t)) ++ List.replicate k (some none)
    ∧ (∀ j, j ≤ s.queue.length → (spinIterate s ds j).queue = s.queue.drop j) :=
  c8_aux m s.queue s ds k rfl h1 h2 hm hq

/-- Witness for C8: a two-ticket queue (`T1`, `T2`) on a two-entry wheel;
four spins trace `[T1, T2, natural, natural]` and the queue drains head
first. -/
theorem c8_fifo_consumption_and_exhaustion_witness :
    spinTrace ⟨false, ["x", "y"], ["T1", "T2"], 0, 0,
        some (buildTicketAngleMap [⟨"T1", "a"⟩, ⟨"T2", "b"⟩]), none⟩
        (fun _ => ⟨0, 0, 0, 0, 0⟩) ((["T1", "T2"] : List String).length + 2)
      = [some (some "T1"), some (some "T2"), some none, some none]
    ∧ (∀ j, j ≤ (["T1", "T2"] : List String).length →
        (spinIterate ⟨false, ["x", "y"], ["T1", "T2"], 0, 0,
          some (buildTicketAngleMap [⟨"T1", "a"⟩, ⟨"T2", "b"⟩]), none⟩
          (fun _ => ⟨0, 0, 0, 0, 0⟩) j).queue = (["T1", "T2"] : List String).drop j) := by
  have h := c8_fifo_consumption_and_exhaustion
    ⟨false, ["x", "y"], ["T1", "T2"], 0, 0,
      some (buildTicketAngleMap [⟨"T1", "a"⟩, ⟨"T2", "b"⟩]), none⟩
    (buildTicketAngleMap [⟨"T1", "a"⟩, ⟨"T2", "b"⟩])
    (fun _ => ⟨0, 0, 0, 0, 0⟩) 2 rfl (by simp) rfl
    (by
      intro t ht
      simp only [List.mem_cons, List.not_mem_nil, or_false] at ht
      rcases ht with rfl | rfl
      · exact ⟨by simp, ⟨segmentCenterAngle 2 0,
          by simp [buildTicketAngleMap, buildFrom, mapSet, mapGet]⟩⟩
      · exact ⟨by simp, ⟨segmentCenterAngle 2 1,
          by simp [buildTicketAngleMap, buildFrom, mapSet, mapGet]⟩⟩)
  simpa using h

end SpinWheel
